import Mathlib

/-!
Verification development for the weekly replanting scheduler
(`src/planning_engine.py`, class `PlanningEngine`).

The Python code is shallowly embedded: rows of the pandas DataFrame become
Lean structures, the per-row predicates (`is_eligible`, `assign_pool`)
become pure Lean functions, and `create_weekly_schedule`'s mutable
capacity grid becomes explicit state passing over a list of 10 cells
(Monday-morning .. Friday-afternoon).  Python's `ZeroDivisionError` in the
statistics loop is modelled with `Option`.
-/

namespace PlanningEngine

/-- Substring test on character lists: does `hay` contain `needle`
as a contiguous run?  Models Python's `in` operator on strings. -/
def subOf (needle : List Char) : List Char → Bool
  | [] => needle.isEmpty
  | c :: t => needle.isPrefixOf (c :: t) || subOf needle t

/-- `strContains hay needle` models Python `needle in hay`. -/
def strContains (hay needle : String) : Bool :=
  subOf needle.data hay.data

/-- Python's `str.upper()` (ASCII range, which covers every string the
program compares against).  Implemented character-wise so that it reduces
in the kernel. -/
def upperStr (s : String) : String :=
  ⟨s.data.map Char.toUpper⟩

/-- `ELIGIBLE_MEDIUMS = {'X', 'XM', 'RG', 'XS', 'E', 'E+', 'i'}`
(planning_engine.py line 9).  Note the lower-case `'i'` literal. -/
def ELIGIBLE_MEDIUMS : List String := ["X", "XM", "RG", "XS", "E", "E+", "i"]

/-- `POOL_I_MEDIUMS = {'XM', 'i'}` (line 12). -/
def POOL_I_MEDIUMS : List String := ["XM", "i"]

/-- `POOL_GEN_MEDIUMS = {'X', 'RG', 'XS', 'E', 'E+'}` (line 15). -/
def POOL_GEN_MEDIUMS : List String := ["X", "RG", "XS", "E", "E+"]

/-- Mediums that trigger the BRAHY threshold: `{'X', 'XM', 'E', 'E+'}`
(line 100). -/
def BRAHY_MEDIUMS : List String := ["X", "XM", "E", "E+"]

/-- One raw input row as consumed by `is_eligible`: location string
(`chambre`), medium code, strain code, and age in weeks (`none` models
`NaN`/unknown). -/
structure RawRow where
  chambre : String
  medium : String
  strain : String
  age : Option Int
  deriving Repr, DecidableEq

/-- Threshold selection of `is_eligible` (lines 97-103): BRAHY strains on
X/XM/E/E+ use `threshold_brahy`, everything else `threshold_other`.
`strainU`/`milieuU` are already upper-cased by the caller. -/
def eligThreshold (strainU milieuU : String) (threshold_brahy threshold_other : Int) : Int :=
  if strainU = "BRAHY" ∧ BRAHY_MEDIUMS.contains milieuU then threshold_brahy
  else threshold_other

/-- `PlanningEngine.is_eligible` (lines 72-108): returns the eligibility
flag together with the (French) ineligibility reason string. -/
def is_eligible (row : RawRow) (threshold_brahy threshold_other : Int) :
    Bool × Option String :=
  let chambre := upperStr row.chambre
  if strContains chambre "CHF" || strContains chambre "FROID" then
    (false, some "Chambre froide")
  else
    let milieu := upperStr row.medium
    if ¬ ELIGIBLE_MEDIUMS.contains milieu then
      (false, some "Milieu non éligible")
    else
      match row.age with
      | none => (false, some "Âge inconnu")
      | some age_weeks =>
        let strain := upperStr row.strain
        let threshold := eligThreshold strain milieu threshold_brahy threshold_other
        if threshold ≤ age_weeks then (true, none)
        else (false, some ("Trop jeune (" ++ toString age_weeks ++ "sem < "
              ++ toString threshold ++ "sem)"))

/-- `PlanningEngine.assign_pool` (lines 110-119). -/
def assign_pool (milieu : String) : Option String :=
  let m := upperStr milieu
  if POOL_I_MEDIUMS.contains m then some "pool_i"
  else if POOL_GEN_MEDIUMS.contains m then some "pool_gen"
  else none

/-- Per-half-day worker-pool capacity, `__init__` lines 38-41:
`int(nb_workers * jars_per_day_per_worker / 2)`.  For the non-negative
integer configurations used here, Python's float arithmetic followed by
`int()` truncation agrees with flooring natural division. -/
def capHalfDay (nbWorkers jarsPerDayPerWorker : Nat) : Int :=
  ((nbWorkers * jarsPerDayPerWorker) / 2 : Nat)

/-! ## The weekly scheduler (`create_weekly_schedule`, lines 176-336)

A prepared row (one row of the `prepare_data` output, restricted to the
fields the scheduler reads): strain code, jar count, age in weeks, the
eligibility flag, and the assigned pool. -/

structure PRow where
  strain : String
  jars : Int
  age : Int
  eligible : Bool
  pool : Option String
  deriving Repr, DecidableEq

/-- Stable insertion of `x` into `l` under the Boolean comparison `le`. -/
def insertBy (le : α → α → Bool) (x : α) : List α → List α
  | [] => [x]
  | y :: ys => if le x y then x :: y :: ys else y :: insertBy le x ys

/-- Stable insertion sort.  `sort_values` in the source is deterministic;
the spec (§9) leaves the tie rule an implementation choice, and no claim
below depends on tie order. -/
def sortBy (le : α → α → Bool) : List α → List α
  | [] => []
  | x :: xs => insertBy le x (sortBy le xs)

/-- Lexicographic comparison of strings by code point, as Python's `sorted`
orders the `groupby` keys. -/
def charListLe : List Char → List Char → Bool
  | [], _ => true
  | _ :: _, [] => false
  | a :: as, b :: bs => if a = b then charListLe as bs else decide (a < b)

def strLeB (a b : String) : Bool := charListLe a.data b.data

/-- One strain group (`group_by_strain`, lines 209-235): the strain code,
the group's mean age (`age_weeks: mean`), summed jars, and its records
sorted by age descending.  `avgAge` is the exact rational mean. -/
structure StrainGroup where
  strain : String
  avgAge : ℚ
  totalJars : Int
  items : List PRow
  deriving Repr, DecidableEq

/-- Comparator for `sort_values('age_weeks', ascending=False)` on groups. -/
def groupCmp (a b : StrainGroup) : Bool := decide (b.avgAge ≤ a.avgAge)

/-- Comparator for `sort_values('age_weeks', ascending=False)` on records. -/
def itemCmp (a b : PRow) : Bool := decide (b.age ≤ a.age)

/-- `group_by_strain` (lines 209-235): group the pool's rows by strain code
(`groupby` sorts its keys), compute each group's mean age and jar sum,
sort each group's records by age descending, then sort the groups by mean
age descending. -/
def group_by_strain (rows : List PRow) : List StrainGroup :=
  let keys := sortBy strLeB ((rows.map (·.strain)).dedup)
  sortBy groupCmp (keys.map (fun k =>
    let its := rows.filter (fun r => r.strain == k)
    { strain := k
      avgAge := mkRat ((its.map (·.age)).sum) its.length
      totalJars := (its.map (·.jars)).sum
      items := sortBy itemCmp its }))

/-- `time_slots` (lines 255-259) has 5 days × 2 slots = 10 cells; cells are
modelled by their chronological index 0..9. -/
def numSlots : Nat := 10

/-- An entry of the `planned` list (lines 278-282): the record plus its
scheduled cell and pool. -/
structure PlannedItem where
  row : PRow
  slotIdx : Nat
  pool : String
  deriving Repr, DecidableEq

/-- An entry of the `backlog` list (lines 286-290). -/
structure BacklogItem where
  row : PRow
  reason : String
  deriving Repr, DecidableEq

/-- The mutable state of one pool's placement pass: remaining capacity per
cell plus the accumulated `planned` and `backlog` lists. -/
structure PoolState where
  caps : List Int
  planned : List PlannedItem
  backlog : List BacklogItem
  deriving Repr, DecidableEq

/-- Index of the first cell whose remaining capacity is `≥ jars`
(the scan of lines 272-273). -/
def findSlot (jars : Int) : List Int → Option Nat
  | [] => none
  | c :: cs => if jars ≤ c then some 0 else (findSlot jars cs).map (· + 1)

/-- Decrement the capacity at index `i` by `jars` (line 275). -/
def decAt (jars : Int) : Nat → List Int → List Int
  | _, [] => []
  | 0, c :: cs => (c - jars) :: cs
  | n + 1, c :: cs => c :: decAt jars n cs

/-- Placing one record (`place_strain_group` body, lines 267-290): put it
in the first cell with enough remaining capacity, else append it to the
backlog with reason `'Capacité insuffisante'`. -/
def step (pool : String) (s : PoolState) (r : PRow) : PoolState :=
  match findSlot r.jars s.caps with
  | some i =>
    { caps := decAt r.jars i s.caps
      planned := s.planned ++ [⟨r, i, pool⟩]
      backlog := s.backlog }
  | none => { s with backlog := s.backlog ++ [⟨r, "Capacité insuffisante"⟩] }

/-- Fresh capacity grid for one pool (lines 241-244): every cell starts at
the pool's half-day capacity. -/
def initState (cap : Int) : PoolState := ⟨List.replicate numSlots cap, [], []⟩

/-- The order in which one pool's records are attempted: groups in
`group_by_strain` order, each group's records in their sorted order
(the two nested loops of lines 267 and 293-298). -/
def attemptOrder (rows : List PRow) : List PRow :=
  (group_by_strain rows).flatMap (·.items)

/-- One pool's whole placement pass. -/
def runPool (pool : String) (cap : Int) (rows : List PRow) : PoolState :=
  (attemptOrder rows).foldl (step pool) (initState cap)

def isGen (r : PRow) : Bool := r.pool == some "pool_gen"

def isI (r : PRow) : Bool := r.pool == some "pool_i"

/-- Result of the placement phase of `create_weekly_schedule`
(everything up to line 302): planned and backlog lists (general pool
first, as the source appends to shared lists), final capacity grids, and
the eligible-row count used by the statistics. -/
structure RunResult where
  planned : List PlannedItem
  backlog : List BacklogItem
  capsGen : List Int
  capsI : List Int
  totalEligible : Nat
  deriving Repr, DecidableEq

/-- `pool_gen_items` (line 205): the eligible rows assigned to the
general pool. -/
def genRowsOf (rows : List PRow) : List PRow :=
  (rows.filter (fun r => r.eligible)).filter isGen

/-- `pool_i_items` (line 206): the eligible rows assigned to the
specialized pool. -/
def iRowsOf (rows : List PRow) : List PRow :=
  (rows.filter (fun r => r.eligible)).filter isI

/-- Lines 201-298: filter the eligible rows, split them by pool, and run
both pools' placement passes on fresh grids. -/
def runSchedule (capGen capI : Int) (rows : List PRow) : RunResult :=
  let eligible := rows.filter (fun r => r.eligible)
  let sGen := runPool "pool_gen" capGen (genRowsOf rows)
  let sI := runPool "pool_i" capI (iRowsOf rows)
  { planned := sGen.planned ++ sI.planned
    backlog := sGen.backlog ++ sI.backlog
    capsGen := sGen.caps
    capsI := sI.caps
    totalEligible := eligible.length }

/-- The `stats` dict (lines 304-326).  `capacity_used_*` and
`capacity_pct_*` are indexed by the cell index 0..9 instead of the
`"day_slot"` string key. -/
structure ScheduleStats where
  total_eligible : Nat
  total_planned : Nat
  total_backlog : Nat
  jars_planned_gen : Int
  jars_planned_i : Int
  capacity_used_gen : List Int
  capacity_used_i : List Int
  capacity_pct_gen : List ℚ
  capacity_pct_i : List ℚ
  deriving Repr, DecidableEq

/-- Lines 304-326.  The per-cell percentage `used / cap * 100` is Python
true division: when a pool's half-day capacity is `0` the loop raises
`ZeroDivisionError` on its first iteration and the whole call fails,
modelled by `none`. -/
def mkStats (capGen capI : Int) (r : RunResult) : Option ScheduleStats :=
  if capGen = 0 ∨ capI = 0 then none
  else some
    { total_eligible := r.totalEligible
      total_planned := r.planned.length
      total_backlog := r.backlog.length
      jars_planned_gen :=
        ((r.planned.filter (fun p => p.pool == "pool_gen")).map (fun p => p.row.jars)).sum
      jars_planned_i :=
        ((r.planned.filter (fun p => p.pool == "pool_i")).map (fun p => p.row.jars)).sum
      capacity_used_gen := r.capsGen.map (fun c => capGen - c)
      capacity_used_i := r.capsI.map (fun c => capI - c)
      capacity_pct_gen := r.capsGen.map (fun c => ((capGen - c : ℤ) : ℚ) / (capGen : ℚ) * 100)
      capacity_pct_i := r.capsI.map (fun c => ((capI - c : ℤ) : ℚ) / (capI : ℚ) * 100) }

/-- Full result of `create_weekly_schedule` (lines 328-336).  The schedule
grid's per-cell record lists are recoverable from `planned` (each planned
item carries its pool and cell); `week_start` echoes the `monday_date`
argument.  `allowSplit` is the `allow_split` keyword argument (line 176). -/
structure ScheduleResult where
  planned : List PlannedItem
  backlog : List BacklogItem
  capsGen : List Int
  capsI : List Int
  stats : ScheduleStats
  week_start : Int
  deriving Repr, DecidableEq

set_option linter.unusedVariables false in
/-- `create_weekly_schedule` (lines 176-336): run the placement phase,
then the statistics loop; a `ZeroDivisionError` in the latter makes the
whole call fail (`none`). -/
def create_weekly_schedule (capGen capI : Int) (rows : List PRow)
    (weekStart : Int) (allowSplit : Bool) : Option ScheduleResult :=
  let run := runSchedule capGen capI rows
  match mkStats capGen capI run with
  | none => none
  | some st => some ⟨run.planned, run.backlog, run.capsGen, run.capsI, st, weekStart⟩

/-- The successive states of one pool's placement pass: the state before
each record is attempted, ending with the final state.  Makes the claim
"throughout the scheduling run" statable. -/
def traceFrom (pool : String) (s : PoolState) : List PRow → List PoolState
  | [] => [s]
  | r :: rs => s :: traceFrom pool (step pool s r) rs

/-- Total jar count of the planned records placed into cell `j`. -/
def slotSum (j : Nat) (ps : List PlannedItem) : Int :=
  ((ps.filter (fun p => p.slotIdx == j)).map (fun p => p.row.jars)).sum

/-! Concrete rows for Scenario A (§8 of the spec) and the witnesses. -/

/-- A 40-jar record of strain `A`, age 10 weeks, general pool. -/
def rowA : PRow := ⟨"A", 40, 10, true, some "pool_gen"⟩

/-- The 90-jar record of strain `B`, age 5 weeks, general pool. -/
def rowB : PRow := ⟨"B", 90, 5, true, some "pool_gen"⟩

/-- Scenario A input: three 40-jar `A` records and one 90-jar `B` record. -/
def scenarioA : List PRow := [rowA, rowA, rowA, rowB]

/-- An oversized general-pool record (jar count above every cell's
initial capacity in the witness configurations). -/
def rowBig : PRow := ⟨"Z", 1000, 9, true, some "pool_gen"⟩

/-- An eligible record with no assignable pool (defensive case of §4.2). -/
def rowNoPool : PRow := ⟨"N", 10, 9, true, none⟩

/-! ## Basic lemmas about the placement primitives -/

theorem findSlot_some_lt {v : Int} {l : List Int} {j : Nat}
    (h : findSlot v l = some j) : j < l.length := by
  induction l generalizing j with
  | nil => simp [findSlot] at h
  | cons c cs ih =>
    by_cases hc : v ≤ c
    · rw [findSlot, if_pos hc] at h
      injection h with h
      subst h
      simp
    · simp [findSlot, hc, Option.map_eq_some'] at h
      obtain ⟨j', hj', rfl⟩ := h
      have := ih hj'
      simp
      omega

theorem findSlot_some_le {v : Int} {l : List Int} {j : Nat}
    (h : findSlot v l = some j) : ∃ c, l[j]? = some c ∧ v ≤ c := by
  induction l generalizing j with
  | nil => simp [findSlot] at h
  | cons c cs ih =>
    by_cases hc : v ≤ c
    · simp [findSlot, hc] at h
      subst h
      exact ⟨c, by simp, hc⟩
    · simp [findSlot, hc, Option.map_eq_some'] at h
      obtain ⟨j', hj', rfl⟩ := h
      simpa using ih hj'

theorem findSlot_some_first {v : Int} {l : List Int} {j : Nat}
    (h : findSlot v l = some j) : ∀ k, k < j → ∃ c, l[k]? = some c ∧ c < v := by
  induction l generalizing j with
  | nil => simp [findSlot] at h
  | cons c cs ih =>
    by_cases hc : v ≤ c
    · simp [findSlot, hc] at h
      omega
    · simp [findSlot, hc, Option.map_eq_some'] at h
      obtain ⟨j', hj', rfl⟩ := h
      intro k hk
      match k with
      | 0 => exact ⟨c, by simp, by omega⟩
      | k + 1 =>
        have := ih hj' k (by omega)
        simpa using this

theorem findSlot_none_iff {v : Int} {l : List Int} :
    findSlot v l = none ↔ ∀ c ∈ l, c < v := by
  induction l with
  | nil => simp [findSlot]
  | cons c cs ih =>
    by_cases hc : v ≤ c
    · rw [findSlot, if_pos hc]
      constructor
      · intro h
        cases h
      · intro h
        exact absurd (h c (List.mem_cons_self c cs)) (by omega)
    · rw [findSlot, if_neg hc, Option.map_eq_none', ih]
      simp only [List.mem_cons, forall_eq_or_imp]
      constructor
      · intro h
        exact ⟨by omega, h⟩
      · intro h
        exact h.2

theorem decAt_length (v : Int) (i : Nat) (l : List Int) :
    (decAt v i l).length = l.length := by
  induction l generalizing i with
  | nil => cases i <;> rfl
  | cons c cs ih => cases i <;> simp [decAt, ih]

theorem decAt_getElem?_self (v : Int) (i : Nat) (l : List Int) :
    (decAt v i l)[i]? = l[i]?.map (· - v) := by
  induction l generalizing i with
  | nil => cases i <;> rfl
  | cons c cs ih =>
    cases i with
    | zero => simp [decAt]
    | succ i => simpa [decAt] using ih i

theorem decAt_getElem?_ne (v : Int) {i k : Nat} (l : List Int) (h : k ≠ i) :
    (decAt v i l)[k]? = l[k]? := by
  induction l generalizing i k with
  | nil => cases i <;> rfl
  | cons c cs ih =>
    cases i with
    | zero =>
      match k with
      | 0 => omega
      | k + 1 => simp [decAt]
    | succ i =>
      match k with
      | 0 => simp [decAt]
      | k + 1 => simpa [decAt] using ih (by omega)

theorem mem_decAt {v : Int} {i : Nat} {l : List Int} {c' : Int}
    (h : c' ∈ decAt v i l) : c' ∈ l ∨ ∃ c, l[i]? = some c ∧ c' = c - v := by
  induction l generalizing i with
  | nil => cases i <;> simp [decAt] at h
  | cons c cs ih =>
    cases i with
    | zero =>
      simp only [decAt, List.mem_cons] at h
      rcases h with rfl | h
      · exact Or.inr ⟨c, by simp, rfl⟩
      · exact Or.inl (by simp [h])
    | succ i =>
      simp only [decAt, List.mem_cons] at h
      rcases h with rfl | h
      · exact Or.inl (by simp)
      · rcases ih h with h' | ⟨c₀, hc₀, rfl⟩
        · exact Or.inl (by simp [h'])
        · exact Or.inr ⟨c₀, by simpa using hc₀, rfl⟩

/-! ## Lemmas about the stable insertion sort -/

theorem insertBy_perm (le : α → α → Bool) (x : α) (l : List α) :
    (insertBy le x l).Perm (x :: l) := by
  induction l with
  | nil => exact List.Perm.refl _
  | cons y ys ih =>
    by_cases h : le x y = true
    · simp [insertBy, h]
    · simp only [insertBy, h, if_false]
      exact (ih.cons y).trans (List.Perm.swap x y ys)

theorem sortBy_perm (le : α → α → Bool) (l : List α) : (sortBy le l).Perm l := by
  induction l with
  | nil => exact List.Perm.refl _
  | cons x xs ih => exact (insertBy_perm le x (sortBy le xs)).trans (ih.cons x)

theorem mem_sortBy {le : α → α → Bool} {a : α} {l : List α} :
    a ∈ sortBy le l ↔ a ∈ l :=
  (sortBy_perm le l).mem_iff

theorem insertBy_pairwise {le : α → α → Bool}
    (htot : ∀ a b, le a b = true ∨ le b a = true)
    (htrans : ∀ a b c, le a b = true → le b c = true → le a c = true)
    (x : α) {l : List α} (hl : l.Pairwise (fun a b => le a b = true)) :
    (insertBy le x l).Pairwise (fun a b => le a b = true) := by
  induction l with
  | nil => simp [insertBy]
  | cons y ys ih =>
    rcases List.pairwise_cons.1 hl with ⟨hy, hys⟩
    by_cases h : le x y = true
    · simp only [insertBy, h, if_true]
      refine List.pairwise_cons.2 ⟨?_, hl⟩
      intro z hz
      rcases List.mem_cons.1 hz with rfl | hz
      · exact h
      · exact htrans x y z h (hy z hz)
    · simp only [insertBy, h, if_false]
      refine List.pairwise_cons.2 ⟨?_, ih hys⟩
      intro z hz
      have hz' : z = x ∨ z ∈ ys := by
        simpa using (insertBy_perm le x ys).mem_iff.1 hz
      rcases hz' with rfl | hz'
      · rcases htot z y with h' | h'
        · exact absurd h' h
        · exact h'
      · exact hy z hz'

theorem sortBy_pairwise {le : α → α → Bool}
    (htot : ∀ a b, le a b = true ∨ le b a = true)
    (htrans : ∀ a b c, le a b = true → le b c = true → le a c = true)
    (l : List α) : (sortBy le l).Pairwise (fun a b => le a b = true) := by
  induction l with
  | nil => simp [sortBy]
  | cons x xs ih => exact insertBy_pairwise htot htrans x ih

/-! ## Step and trace lemmas -/

theorem step_of_none {pool : String} {s : PoolState} {r : PRow}
    (h : findSlot r.jars s.caps = none) :
    step pool s r = { s with backlog := s.backlog ++ [⟨r, "Capacité insuffisante"⟩] } := by
  simp [step, h]

theorem step_of_some {pool : String} {s : PoolState} {r : PRow} {i : Nat}
    (h : findSlot r.jars s.caps = some i) :
    step pool s r = ⟨decAt r.jars i s.caps, s.planned ++ [⟨r, i, pool⟩], s.backlog⟩ := by
  simp [step, h]

theorem step_caps_length (pool : String) (s : PoolState) (r : PRow) :
    (step pool s r).caps.length = s.caps.length := by
  cases h : findSlot r.jars s.caps <;> simp [step, h, decAt_length]

theorem step_backlog_mono {pool : String} {s : PoolState} {r : PRow} {b : BacklogItem}
    (hb : b ∈ s.backlog) : b ∈ (step pool s r).backlog := by
  cases h : findSlot r.jars s.caps <;> simp [step, h, hb]

theorem foldl_backlog_mono (pool : String) :
    ∀ (l : List PRow) (s : PoolState) {b : BacklogItem}, b ∈ s.backlog →
      b ∈ (l.foldl (step pool) s).backlog := by
  intro l
  induction l with
  | nil => intro s b hb; simpa using hb
  | cons r rs ih => intro s b hb; exact ih (step pool s r) (step_backlog_mono hb)

theorem step_shape (pool : String) (s : PoolState) (r : PRow) :
    (step pool s r).caps = s.caps ∨
      ∃ j, j < s.caps.length ∧
        (∀ k, k ≠ j → (step pool s r).caps[k]? = s.caps[k]?) ∧
        (step pool s r).caps[j]? = s.caps[j]?.map (· - r.jars) := by
  cases h : findSlot r.jars s.caps with
  | none => exact Or.inl (by simp [step, h])
  | some i =>
    refine Or.inr ⟨i, findSlot_some_lt h, ?_, ?_⟩
    · intro k hk
      simp [step, h, decAt_getElem?_ne _ _ hk]
    · simp [step, h, decAt_getElem?_self]

theorem step_caps_nonneg {pool : String} {s : PoolState} {r : PRow}
    (h : ∀ c ∈ s.caps, 0 ≤ c) : ∀ c ∈ (step pool s r).caps, 0 ≤ c := by
  cases hf : findSlot r.jars s.caps with
  | none => simpa [step, hf] using h
  | some i =>
    intro c' hc'
    simp only [step, hf] at hc'
    rcases mem_decAt hc' with h' | ⟨c₀, hc₀, rfl⟩
    · exact h c' h'
    · obtain ⟨c₁, hc₁, hle⟩ := findSlot_some_le hf
      rw [hc₀] at hc₁
      injection hc₁ with hc₁
      omega

theorem step_caps_le {pool : String} {s : PoolState} {r : PRow} {cap : Int}
    (hj : 0 ≤ r.jars) (h : ∀ c ∈ s.caps, c ≤ cap) :
    ∀ c ∈ (step pool s r).caps, c ≤ cap := by
  cases hf : findSlot r.jars s.caps with
  | none => simpa [step, hf] using h
  | some i =>
    intro c' hc'
    simp only [step, hf] at hc'
    rcases mem_decAt hc' with h' | ⟨c₀, hc₀, rfl⟩
    · exact h c' h'
    · have hmem : c₀ ∈ s.caps := List.getElem?_mem hc₀
      have := h c₀ hmem
      omega

theorem forall₂_decAt (v : Int) (hv : 0 ≤ v) :
    ∀ (i : Nat) (l : List Int), List.Forall₂ (fun a b => b ≤ a) l (decAt v i l) := by
  intro i l
  induction l generalizing i with
  | nil => cases i <;> exact List.Forall₂.nil
  | cons c cs ih =>
    cases i with
    | zero =>
      exact List.Forall₂.cons (by omega) (List.forall₂_same.2 fun x _ => le_refl x)
    | succ i => exact List.Forall₂.cons (le_refl c) (ih i)

theorem step_caps_forall₂ {pool : String} {s : PoolState} {r : PRow}
    (hj : 0 ≤ r.jars) :
    List.Forall₂ (fun a b => b ≤ a) s.caps (step pool s r).caps := by
  cases hf : findSlot r.jars s.caps with
  | none =>
    simp only [step, hf]
    exact List.forall₂_same.2 fun x _ => le_refl x
  | some i =>
    simp only [step, hf]
    exact forall₂_decAt r.jars hj i s.caps

theorem slotSum_nil (j : Nat) : slotSum j [] = 0 := rfl

theorem slotSum_append (j : Nat) (ps qs : List PlannedItem) :
    slotSum j (ps ++ qs) = slotSum j ps + slotSum j qs := by
  simp [slotSum, List.filter_append]

theorem slotSum_single (j : Nat) (r : PRow) (i : Nat) (pool : String) :
    slotSum j [⟨r, i, pool⟩] = if i = j then r.jars else 0 := by
  by_cases h : i = j <;> simp [slotSum, h]

theorem step_accounted {pool : String} {s : PoolState} {r : PRow} {cap : Int}
    (h : ∀ j, j < s.caps.length → slotSum j s.planned + s.caps.getD j 0 = cap) :
    ∀ j, j < (step pool s r).caps.length →
      slotSum j (step pool s r).planned + (step pool s r).caps.getD j 0 = cap := by
  cases hf : findSlot r.jars s.caps with
  | none =>
    intro j hj
    simp only [step, hf] at hj ⊢
    exact h j hj
  | some i =>
    intro j hj
    rw [step_caps_length] at hj
    have hi : i < s.caps.length := findSlot_some_lt hf
    have hbase := h j hj
    rw [List.getD_eq_getElem?_getD] at hbase
    simp only [step, hf, slotSum_append, slotSum_single]
    rw [List.getD_eq_getElem?_getD]
    by_cases hij : i = j
    · subst hij
      rw [decAt_getElem?_self, List.getElem?_eq_getElem hi]
      rw [List.getElem?_eq_getElem hi] at hbase
      simp only [Option.map_some', Option.getD_some] at hbase ⊢
      simp only [if_true]
      omega
    · rw [decAt_getElem?_ne _ _ (fun hh => hij hh.symm)]
      simp only [if_neg hij]
      omega

theorem traceFrom_head? (pool : String) (s : PoolState) (l : List PRow) :
    (traceFrom pool s l).head? = some s := by
  cases l <;> rfl

theorem traceFrom_ne_nil (pool : String) (s : PoolState) (l : List PRow) :
    traceFrom pool s l ≠ [] := by
  cases l <;> simp [traceFrom]

theorem traceFrom_getLast? (pool : String) :
    ∀ (l : List PRow) (s : PoolState),
      (traceFrom pool s l).getLast? = some (l.foldl (step pool) s) := by
  intro l
  induction l with
  | nil => intro s; rfl
  | cons r rs ih =>
    intro s
    show (s :: traceFrom pool (step pool s r) rs).getLast? = _
    rcases hrs : traceFrom pool (step pool s r) rs with _ | ⟨t, ts⟩
    · exact absurd hrs (traceFrom_ne_nil pool _ rs)
    · rw [List.getLast?_cons_cons, ← hrs, ih (step pool s r)]
      rfl

theorem traceFrom_inv {pool : String} {P : PoolState → Prop} {Q : PRow → Prop}
    (hstep : ∀ s r, Q r → P s → P (step pool s r)) :
    ∀ (l : List PRow) (s : PoolState), (∀ r ∈ l, Q r) → P s →
      ∀ t ∈ traceFrom pool s l, P t := by
  intro l
  induction l with
  | nil =>
    intro s _ hP t ht
    simp [traceFrom] at ht
    exact ht ▸ hP
  | cons r rs ih =>
    intro s hQ hP t ht
    simp only [traceFrom, List.mem_cons] at ht
    rcases ht with rfl | ht
    · exact hP
    · exact ih (step pool s r) (fun r' h' => hQ r' (List.mem_cons_of_mem r h'))
        (hstep s r (hQ r (List.mem_cons_self r rs)) hP) t ht

theorem traceFrom_chain' {pool : String} :
    ∀ (l : List PRow) (s : PoolState), (∀ r ∈ l, 0 ≤ r.jars) →
      List.Chain' (fun a b => List.Forall₂ (fun x y => y ≤ x) a.caps b.caps)
        (traceFrom pool s l) := by
  intro l
  induction l with
  | nil => intro s _; simp [traceFrom]
  | cons r rs ih =>
    intro s h
    show List.Chain' _ (s :: traceFrom pool (step pool s r) rs)
    refine List.chain'_cons'.2 ⟨?_, ih (step pool s r)
      (fun r' h' => h r' (List.mem_cons_of_mem r h'))⟩
    intro b hb
    rw [traceFrom_head? pool (step pool s r) rs] at hb
    injection hb with hb
    subst hb
    exact step_caps_forall₂ (h r (List.mem_cons_self r rs))

theorem traceFrom_succ {pool : String} :
    ∀ (l : List PRow) (s : PoolState) (i : Nat) (r : PRow), l[i]? = some r →
      ∃ t, (traceFrom pool s l)[i]? = some t ∧
        (traceFrom pool s l)[i + 1]? = some (step pool t r) := by
  intro l
  induction l with
  | nil => intro s i r h; simp at h
  | cons r' rs ih =>
    intro s i r h
    cases i with
    | zero =>
      simp only [List.getElem?_cons_zero] at h
      injection h with h
      refine ⟨s, by simp [traceFrom], ?_⟩
      show (s :: traceFrom pool (step pool s r') rs)[1]? = _
      rw [List.getElem?_cons_succ, ← List.head?_eq_getElem?, traceFrom_head?, h]
    | succ i =>
      simp only [List.getElem?_cons_succ] at h
      obtain ⟨t, ht1, ht2⟩ := ih (step pool s r') i r h
      exact ⟨t, by simpa [traceFrom] using ht1, by simpa [traceFrom] using ht2⟩

/-! ## Permutation lemmas: the attempt order is a permutation of the
pool's rows, and placement partitions the rows into planned and backlog -/

theorem flatMap_perm_congr {α β : Type _} {f g : α → List β} :
    ∀ (l : List α), (∀ a ∈ l, (f a).Perm (g a)) → (l.flatMap f).Perm (l.flatMap g) := by
  intro l
  induction l with
  | nil => intro _; simp
  | cons x xs ih =>
    intro h
    rw [List.flatMap_cons, List.flatMap_cons]
    exact (h x (List.mem_cons_self x xs)).append
      (ih fun a ha => h a (List.mem_cons_of_mem x ha))

theorem flatMap_congr {α β : Type _} {f g : α → List β} :
    ∀ (l : List α), (∀ a ∈ l, f a = g a) → l.flatMap f = l.flatMap g := by
  intro l
  induction l with
  | nil => intro _; rfl
  | cons x xs ih =>
    intro h
    rw [List.flatMap_cons, List.flatMap_cons, h x (List.mem_cons_self x xs),
      ih fun a ha => h a (List.mem_cons_of_mem x ha)]

theorem flatMap_perm_left {α β : Type _} {l₁ l₂ : List α} (h : l₁.Perm l₂)
    (f : α → List β) : (l₁.flatMap f).Perm (l₂.flatMap f) := by
  induction h with
  | nil => exact List.Perm.refl _
  | cons x _ ih =>
    rw [List.flatMap_cons, List.flatMap_cons]
    exact ih.append_left (f x)
  | swap x y l =>
    simp only [List.flatMap_cons, ← List.append_assoc]
    exact List.perm_append_comm.append_right _
  | trans _ _ ih₁ ih₂ => exact ih₁.trans ih₂

theorem flatMap_filter_perm :
    ∀ (ks : List String) (l : List PRow), ks.Nodup →
      (∀ x ∈ l, x.strain ∈ ks) →
      (ks.flatMap (fun k => l.filter (fun r => r.strain == k))).Perm l := by
  intro ks
  induction ks with
  | nil =>
    intro l _ hcov
    have hl : l = [] := by
      cases l with
      | nil => rfl
      | cons x xs => exact absurd (hcov x (List.mem_cons_self x xs)) (List.not_mem_nil _)
    subst hl
    simp
  | cons k ks ih =>
    intro l hnd hcov
    have hnk : k ∉ ks := (List.nodup_cons.1 hnd).1
    have hnd' : ks.Nodup := (List.nodup_cons.1 hnd).2
    rw [List.flatMap_cons]
    have hrw : ks.flatMap (fun k' => l.filter (fun r => r.strain == k'))
        = ks.flatMap (fun k' => (l.filter (fun r => !(r.strain == k))).filter
            (fun r => r.strain == k')) := by
      apply flatMap_congr
      intro k' hk'
      have hkk : k' ≠ k := fun hh => hnk (hh ▸ hk')
      rw [List.filter_filter]
      apply List.filter_congr
      intro x hx
      by_cases hxk : x.strain = k'
      · simp [hxk, hkk]
      · simp [hxk]
    rw [hrw]
    have hcov' : ∀ x ∈ l.filter (fun r => !(r.strain == k)), x.strain ∈ ks := by
      intro x hx
      rcases List.mem_filter.1 hx with ⟨hxl, hcond⟩
      have hcond' : x.strain ≠ k := by simpa using hcond
      rcases List.mem_cons.1 (hcov x hxl) with h' | h'
      · exact absurd h' hcond'
      · exact h'
    refine (List.Perm.append_left _ (ih _ hnd' hcov')).trans ?_
    exact List.filter_append_perm (fun r => r.strain == k) l

theorem attemptOrder_perm (rows : List PRow) : (attemptOrder rows).Perm rows := by
  unfold attemptOrder group_by_strain
  refine (flatMap_perm_left (sortBy_perm groupCmp _) _).trans ?_
  rw [List.flatMap_map]
  refine (flatMap_perm_congr _ (fun k _ => sortBy_perm itemCmp _)).trans ?_
  exact flatMap_filter_perm _ rows
    ((sortBy_perm strLeB _).symm.nodup (List.nodup_dedup _))
    (fun x hx => mem_sortBy.2 (List.mem_dedup.2 (List.mem_map_of_mem _ hx)))

theorem perm_place_shuffle {α : Type _} (P B rs : List α) (r : α) :
    (((P ++ [r]) ++ B) ++ rs).Perm ((P ++ B) ++ (r :: rs)) := by
  have h1 : ((P ++ [r]) ++ B) ++ rs = P ++ (r :: (B ++ rs)) := by
    simp [List.append_assoc]
  have h2 : (P ++ B) ++ (r :: rs) = P ++ (B ++ (r :: rs)) := by
    simp [List.append_assoc]
  rw [h1, h2]
  exact List.Perm.append_left P List.perm_middle.symm

theorem foldl_partition (pool : String) :
    ∀ (l : List PRow) (s : PoolState),
      (((l.foldl (step pool) s).planned.map (·.row)) ++
        ((l.foldl (step pool) s).backlog.map (·.row))).Perm
      (((s.planned.map (·.row)) ++ (s.backlog.map (·.row))) ++ l) := by
  intro l
  induction l with
  | nil => intro s; simp
  | cons r rs ih =>
    intro s
    rw [List.foldl_cons]
    refine (ih (step pool s r)).trans ?_
    cases hf : findSlot r.jars s.caps with
    | some i =>
      rw [step_of_some hf]
      simp only [List.map_append, List.map_cons, List.map_nil]
      exact perm_place_shuffle _ _ rs r
    | none =>
      rw [step_of_none hf]
      simp only [List.map_append, List.map_cons, List.map_nil]
      apply List.Perm.of_eq
      simp [List.append_assoc]

theorem runPool_partition (pool : String) (cap : Int) (rows : List PRow) :
    (((runPool pool cap rows).planned.map (·.row)) ++
      ((runPool pool cap rows).backlog.map (·.row))).Perm rows := by
  unfold runPool
  refine (foldl_partition pool (attemptOrder rows) (initState cap)).trans ?_
  simpa [initState] using attemptOrder_perm rows

theorem filter_or_perm {α : Type _} {p q : α → Bool}
    (hdisj : ∀ a, ¬(p a = true ∧ q a = true)) :
    ∀ (l : List α), (l.filter p ++ l.filter q).Perm (l.filter (fun a => p a || q a)) := by
  intro l
  induction l with
  | nil => simp
  | cons x xs ih =>
    by_cases hp : p x = true
    · have hq : ¬ q x = true := fun hq => hdisj x ⟨hp, hq⟩
      simp only [List.filter_cons, hp, if_true, hq, if_false, Bool.or_eq_true,
        eq_self_iff_true, true_or, List.cons_append]
      simpa using ih.cons x
    · by_cases hq : q x = true
      · simp only [List.filter_cons, hp, if_false, hq, if_true, Bool.or_eq_true,
          false_or, eq_self_iff_true]
        exact List.perm_middle.trans (by simpa using ih.cons x)
      · simp only [List.filter_cons, hp, hq, if_false, Bool.or_eq_true]
        simpa [hp, hq] using ih

theorem foldl_backlog_reason (pool : String) :
    ∀ (l : List PRow) (s : PoolState),
      (∀ b ∈ s.backlog, b.reason = "Capacité insuffisante") →
      ∀ b ∈ (l.foldl (step pool) s).backlog, b.reason = "Capacité insuffisante" := by
  intro l
  induction l with
  | nil => intro s h; simpa using h
  | cons r rs ih =>
    intro s h
    refine ih (step pool s r) ?_
    cases hf : findSlot r.jars s.caps with
    | some i =>
      rw [step_of_some hf]
      exact h
    | none =>
      rw [step_of_none hf]
      intro b hb
      rcases List.mem_append.1 hb with hb | hb
      · exact h b hb
      · rcases List.mem_singleton.1 hb with rfl
        rfl

theorem perm_exchange {α : Type _} (a b c d : List α) :
    ((a ++ b) ++ (c ++ d)).Perm ((a ++ c) ++ (b ++ d)) := by
  have h : (b ++ (c ++ d)).Perm (c ++ (b ++ d)) := by
    rw [← List.append_assoc, ← List.append_assoc]
    exact List.perm_append_comm.append_right d
  refine (List.Perm.of_eq (List.append_assoc a b (c ++ d))).trans ?_
  exact (h.append_left a).trans (List.Perm.of_eq (List.append_assoc a c (b ++ d)).symm)

theorem isGen_isI_disjoint : ∀ r : PRow, ¬(isGen r = true ∧ isI r = true) := by
  intro r ⟨h1, h2⟩
  simp [isGen] at h1
  simp [isI] at h2
  rw [h1] at h2
  exact absurd h2 (by decide)

theorem runPool_planned_row_mem {pool : String} {cap : Int} {rows : List PRow}
    {p : PlannedItem} (hp : p ∈ (runPool pool cap rows).planned) : p.row ∈ rows :=
  (runPool_partition pool cap rows).mem_iff.1
    (List.mem_append.2 (Or.inl (List.mem_map_of_mem _ hp)))

theorem runPool_backlog_row_mem {pool : String} {cap : Int} {rows : List PRow}
    {b : BacklogItem} (hb : b ∈ (runPool pool cap rows).backlog) : b.row ∈ rows :=
  (runPool_partition pool cap rows).mem_iff.1
    (List.mem_append.2 (Or.inr (List.mem_map_of_mem _ hb)))

theorem big_to_backlog (pool : String) {cap : Int} :
    ∀ (l : List PRow) (s : PoolState) (r : PRow),
      (∀ c ∈ s.caps, c ≤ cap) → (∀ x ∈ l, 0 ≤ x.jars) → r ∈ l → cap < r.jars →
      ∃ b ∈ (l.foldl (step pool) s).backlog, b.row = r := by
  intro l
  induction l with
  | nil => intro s r _ _ h; simp at h
  | cons x xs ih =>
    intro s r hcaps hjars hr hbig
    rw [List.foldl_cons]
    rcases List.mem_cons.1 hr with rfl | hr
    · have hnone : findSlot r.jars s.caps = none :=
        findSlot_none_iff.2 (fun c hc => by have := hcaps c hc; omega)
      refine ⟨⟨r, "Capacité insuffisante"⟩, ?_, rfl⟩
      apply foldl_backlog_mono
      rw [step_of_none hnone]
      simp
    · exact ih (step pool s x) r
        (step_caps_le (hjars x (List.mem_cons_self x xs)) hcaps)
        (fun y hy => hjars y (List.mem_cons_of_mem x hy)) hr hbig

theorem groupCmp_total : ∀ a b : StrainGroup,
    groupCmp a b = true ∨ groupCmp b a = true := by
  intro a b
  rcases le_total b.avgAge a.avgAge with h | h
  · exact Or.inl (by simp [groupCmp, h])
  · exact Or.inr (by simp [groupCmp, h])

theorem groupCmp_trans : ∀ a b c : StrainGroup,
    groupCmp a b = true → groupCmp b c = true → groupCmp a c = true := by
  intro a b c hab hbc
  simp only [groupCmp, decide_eq_true_eq] at *
  exact le_trans hbc hab

theorem itemCmp_total : ∀ a b : PRow, itemCmp a b = true ∨ itemCmp b a = true := by
  intro a b
  rcases le_total b.age a.age with h | h
  · exact Or.inl (by simp [itemCmp, h])
  · exact Or.inr (by simp [itemCmp, h])

theorem itemCmp_trans : ∀ a b c : PRow,
    itemCmp a b = true → itemCmp b c = true → itemCmp a c = true := by
  intro a b c hab hbc
  simp only [itemCmp, decide_eq_true_eq] at *
  exact le_trans hbc hab

theorem group_by_strain_pairwise (rows : List PRow) :
    (group_by_strain rows).Pairwise (fun a b => b.avgAge ≤ a.avgAge) := by
  unfold group_by_strain
  refine (sortBy_pairwise groupCmp_total groupCmp_trans _).imp ?_
  intro a b h
  simpa [groupCmp] using h

theorem group_items_pairwise (rows : List PRow) :
    ∀ g ∈ group_by_strain rows, g.items.Pairwise (fun a b => b.age ≤ a.age) := by
  intro g hg
  simp only [group_by_strain] at hg
  rw [mem_sortBy] at hg
  rcases List.mem_map.1 hg with ⟨k, _, rfl⟩
  refine (sortBy_pairwise itemCmp_total itemCmp_trans _).imp ?_
  intro a b h
  simpa [itemCmp] using h

theorem exists_split_two {α : Type _} (l : List α) (i j : Fin l.length)
    (hij : (i : ℕ) < j) :
    ∃ l₁ l₂ l₃, l = l₁ ++ l.get i :: (l₂ ++ l.get j :: l₃) := by
  refine ⟨l.take i, (l.drop (i + 1)).take ((j : ℕ) - i - 1), l.drop ((j : ℕ) + 1), ?_⟩
  conv_lhs => rw [← List.take_append_drop (i : ℕ) l]
  rw [List.drop_eq_getElem_cons i.isLt]
  congr 1
  rw [List.get_eq_getElem]
  congr 1
  conv_lhs => rw [← List.take_append_drop ((j : ℕ) - i - 1) (l.drop ((i : ℕ) + 1))]
  congr 1
  rw [List.drop_drop]
  have hj : (i : ℕ) + 1 + ((j : ℕ) - i - 1) = j := by omega
  rw [hj, List.drop_eq_getElem_cons j.isLt, List.get_eq_getElem]

theorem poolRun_state_inv (pool : String) {cap : Int} (l : List PRow)
    (hcap : 0 ≤ cap) :
    ∀ t ∈ traceFrom pool (initState cap) l,
      (∀ c ∈ t.caps, 0 ≤ c) ∧ t.caps.length = numSlots ∧
      ∀ j, j < numSlots → slotSum j t.planned + t.caps.getD j 0 = cap := by
  refine traceFrom_inv (Q := fun _ => True) ?_ l (initState cap)
    (fun _ _ => trivial) ?_
  · intro s r _ hP
    refine ⟨step_caps_nonneg hP.1, ?_, ?_⟩
    · rw [step_caps_length]
      exact hP.2.1
    · intro j hj
      have hacc : ∀ j, j < s.caps.length →
          slotSum j s.planned + s.caps.getD j 0 = cap := by
        intro j hj
        exact hP.2.2 j (hP.2.1 ▸ hj)
      exact step_accounted hacc j (by rw [step_caps_length, hP.2.1]; exact hj)
  · refine ⟨?_, by simp [initState], ?_⟩
    · intro c hc
      rcases (List.mem_replicate.1 hc).2 with rfl
      exact hcap
    · intro j hj
      show slotSum j [] + (List.replicate numSlots cap).getD j 0 = cap
      rw [slotSum_nil, List.getD_eq_getElem?_getD, List.getElem?_replicate,
        if_pos hj]
      simp

/-! ## Claim theorems -/

/-- C1: the spec treats medium code `i` (any letter case) as eligible and
assigned to the specialized pool, but the code upper-cases the medium
before testing membership in sets whose literal element is the
lower-case `'i'`, so a medium of `"i"` or `"I"` is classified
"Milieu non éligible" and `assign_pool` returns no pool.  This theorem
evaluates the code at the failing inputs. -/
theorem claim_c1 :
    is_eligible ⟨"", "i", "S", some 20⟩ 4 8 = (false, some "Milieu non éligible") ∧
    is_eligible ⟨"", "I", "S", some 20⟩ 4 8 = (false, some "Milieu non éligible") ∧
    assign_pool "i" = none ∧
    assign_pool "I" = none ∧
    upperStr "i" = "I" ∧
    ELIGIBLE_MEDIUMS.contains "I" = false ∧
    POOL_I_MEDIUMS.contains "I" = false := by
  decide

/-- C3 (Scenario A): in the general pool with 10 cells of capacity 100,
three 40-jar records of strain `A` (mean age 10) and one 90-jar record of
strain `B` (mean age 5) are placed greedily: A's first two records in
cell 0 (remaining 100 → 60 → 20), A's third in cell 1 (100 → 60), B's
record in cell 2 (100 → 10); all four are planned and the backlog is
empty. -/
theorem claim_c3 :
    (runSchedule 100 75 scenarioA).planned =
      [⟨rowA, 0, "pool_gen"⟩, ⟨rowA, 0, "pool_gen"⟩, ⟨rowA, 1, "pool_gen"⟩,
       ⟨rowB, 2, "pool_gen"⟩] ∧
    (runSchedule 100 75 scenarioA).backlog = [] ∧
    (runSchedule 100 75 scenarioA).capsGen =
      [20, 60, 10, 100, 100, 100, 100, 100, 100, 100] ∧
    (traceFrom "pool_gen" (initState 100) (attemptOrder scenarioA)).map
        (fun s => s.caps.take 3) =
      [[100, 100, 100], [60, 100, 100], [20, 100, 100], [20, 60, 100],
       [20, 60, 10]] := by
  decide

/-- C7: for a record that passes the cold-storage, medium and known-age
checks, the threshold is `threshold_brahy` when the upper-cased strain is
`BRAHY` and the upper-cased medium is in {X, XM, E, E+} and
`threshold_other` otherwise (an iff when the two configured thresholds
differ); the record is eligible iff its age meets the threshold, and a
too-young record's reason embeds the age and the threshold.  Scenario B:
BRAHY on X at age 5 with thresholds (4, 8) is eligible; BRAHY on RG at
age 5 is ineligible with reason mentioning 5 < 8. -/
theorem claim_c7 (row : RawRow) (tb tdef a : Int)
    (hc1 : strContains (upperStr row.chambre) "CHF" = false)
    (hc2 : strContains (upperStr row.chambre) "FROID" = false)
    (hmed : ELIGIBLE_MEDIUMS.contains (upperStr row.medium) = true)
    (hage : row.age = some a) :
    ((upperStr row.strain = "BRAHY" ∧
        BRAHY_MEDIUMS.contains (upperStr row.medium) = true) →
      eligThreshold (upperStr row.strain) (upperStr row.medium) tb tdef = tb) ∧
    (¬(upperStr row.strain = "BRAHY" ∧
        BRAHY_MEDIUMS.contains (upperStr row.medium) = true) →
      eligThreshold (upperStr row.strain) (upperStr row.medium) tb tdef = tdef) ∧
    (tb ≠ tdef →
      (eligThreshold (upperStr row.strain) (upperStr row.medium) tb tdef = tb ↔
        (upperStr row.strain = "BRAHY" ∧
          BRAHY_MEDIUMS.contains (upperStr row.medium) = true))) ∧
    ((is_eligible row tb tdef).1 = true ↔
      eligThreshold (upperStr row.strain) (upperStr row.medium) tb tdef ≤ a) ∧
    (a < eligThreshold (upperStr row.strain) (upperStr row.medium) tb tdef →
      is_eligible row tb tdef = (false, some ("Trop jeune (" ++ toString a ++ "sem < "
        ++ toString (eligThreshold (upperStr row.strain) (upperStr row.medium) tb tdef)
        ++ "sem)"))) ∧
    is_eligible ⟨"", "X", "BRAHY", some 5⟩ 4 8 = (true, none) ∧
    is_eligible ⟨"", "RG", "BRAHY", some 5⟩ 4 8
      = (false, some "Trop jeune (5sem < 8sem)") := by
  have hrun : is_eligible row tb tdef =
      (if eligThreshold (upperStr row.strain) (upperStr row.medium) tb tdef ≤ a
       then (true, none)
       else (false, some ("Trop jeune (" ++ toString a ++ "sem < "
          ++ toString (eligThreshold (upperStr row.strain) (upperStr row.medium) tb tdef)
          ++ "sem)"))) := by
    rw [is_eligible]
    rw [hc1, hc2, hage]
    have hmem : upperStr row.medium ∈ ELIGIBLE_MEDIUMS := by
      simpa using hmed
    simp [hmem]
  refine ⟨?_, ?_, ?_, ?_, ?_, by decide, by decide⟩
  · intro hcond
    rw [eligThreshold, if_pos hcond]
  · intro hcond
    rw [eligThreshold, if_neg hcond]
  · intro hne
    constructor
    · intro heq
      by_contra hcond
      rw [eligThreshold, if_neg hcond] at heq
      exact hne heq.symm
    · intro hcond
      rw [eligThreshold, if_pos hcond]
  · rw [hrun]
    by_cases hth : eligThreshold (upperStr row.strain) (upperStr row.medium) tb tdef ≤ a
    · simp [hth]
    · simp [hth]
  · intro hlt
    rw [hrun, if_neg (by omega)]

/-- Witness for C7 at Scenario B's concrete data. -/
theorem claim_c7_witness :
    eligThreshold (upperStr "BRAHY") (upperStr "X") 4 8 = 4 ∧
    is_eligible ⟨"", "X", "BRAHY", some 5⟩ 4 8 = (true, none) ∧
    is_eligible ⟨"", "RG", "BRAHY", some 5⟩ 4 8
      = (false, some "Trop jeune (5sem < 8sem)") := by
  have h := claim_c7 ⟨"", "X", "BRAHY", some 5⟩ 4 8 5 (by decide) (by decide)
    (by decide) rfl
  exact ⟨h.1 (by decide), h.2.2.2.2.2.1, h.2.2.2.2.2.2⟩

/-- C2 counterexample: with 17 general workers and 0 specialized workers
(specialized per-cell capacity `int(0 * 25) = 0`), `create_weekly_schedule`
does not return statistics at all — the utilization loop divides by the
zero capacity and the call fails — refuting the claimed divide-by-zero
guard. -/
theorem claim_c2_counterexample :
    capHalfDay 0 50 = 0 ∧
    create_weekly_schedule (capHalfDay 17 50) (capHalfDay 0 50) [] 0 false = none := by
  decide

/-- C2 amended: when both pools' per-cell capacities are nonzero the call
succeeds and, per cell, used = initial − remaining and utilization
percentage = used / initial × 100; when either capacity is zero the call
raises a division error (see the counterexample) instead of reporting 0%. -/
theorem claim_c2 (capGen capI : Int) (rows : List PRow) (ws : Int) (sp : Bool)
    (hg : capGen ≠ 0) (hi : capI ≠ 0) :
    ∃ res, create_weekly_schedule capGen capI rows ws sp = some res ∧
      res.capsGen = (runSchedule capGen capI rows).capsGen ∧
      res.capsI = (runSchedule capGen capI rows).capsI ∧
      res.stats.capacity_used_gen = res.capsGen.map (fun c => capGen - c) ∧
      res.stats.capacity_used_i = res.capsI.map (fun c => capI - c) ∧
      res.stats.capacity_pct_gen =
        res.capsGen.map (fun c => ((capGen - c : ℤ) : ℚ) / (capGen : ℚ) * 100) ∧
      res.stats.capacity_pct_i =
        res.capsI.map (fun c => ((capI - c : ℤ) : ℚ) / (capI : ℚ) * 100) := by
  have hne : ¬(capGen = 0 ∨ capI = 0) := by tauto
  refine ⟨⟨(runSchedule capGen capI rows).planned,
           (runSchedule capGen capI rows).backlog,
           (runSchedule capGen capI rows).capsGen,
           (runSchedule capGen capI rows).capsI,
           { total_eligible := (runSchedule capGen capI rows).totalEligible
             total_planned := (runSchedule capGen capI rows).planned.length
             total_backlog := (runSchedule capGen capI rows).backlog.length
             jars_planned_gen := (((runSchedule capGen capI rows).planned.filter
               (fun p => p.pool == "pool_gen")).map (fun p => p.row.jars)).sum
             jars_planned_i := (((runSchedule capGen capI rows).planned.filter
               (fun p => p.pool == "pool_i")).map (fun p => p.row.jars)).sum
             capacity_used_gen :=
               (runSchedule capGen capI rows).capsGen.map (fun c => capGen - c)
             capacity_used_i :=
               (runSchedule capGen capI rows).capsI.map (fun c => capI - c)
             capacity_pct_gen := (runSchedule capGen capI rows).capsGen.map
               (fun c => ((capGen - c : ℤ) : ℚ) / (capGen : ℚ) * 100)
             capacity_pct_i := (runSchedule capGen capI rows).capsI.map
               (fun c => ((capI - c : ℤ) : ℚ) / (capI : ℚ) * 100) }, ws⟩,
    ?_, rfl, rfl, rfl, rfl, rfl, rfl⟩
  simp only [create_weekly_schedule, mkStats, if_neg hne]

/-- Witness for C2 at a concrete nonzero configuration. -/
theorem claim_c2_witness :
    ∃ res, create_weekly_schedule 425 75 scenarioA 0 false = some res ∧
      res.capsGen = (runSchedule 425 75 scenarioA).capsGen ∧
      res.capsI = (runSchedule 425 75 scenarioA).capsI ∧
      res.stats.capacity_used_gen = res.capsGen.map (fun c => 425 - c) ∧
      res.stats.capacity_used_i = res.capsI.map (fun c => 75 - c) ∧
      res.stats.capacity_pct_gen =
        res.capsGen.map (fun c => ((425 - c : ℤ) : ℚ) / (425 : ℚ) * 100) ∧
      res.stats.capacity_pct_i =
        res.capsI.map (fun c => ((75 - c : ℤ) : ℚ) / (75 : ℚ) * 100) :=
  claim_c2 425 75 scenarioA 0 false (by decide) (by decide)

/-- C9: a record whose jar count exactly equals the remaining capacity of
the first cell that can take it is placed in that cell (the test is
`jars ≤ remaining`, accepting equality), the earlier cells all having
remaining capacity strictly below the jar count, and the cell's remaining
capacity drops to exactly 0. -/
theorem claim_c9 (pool : String) (s : PoolState) (r : PRow) (j : Nat)
    (hfind : findSlot r.jars s.caps = some j)
    (heq : s.caps[j]? = some r.jars) :
    (∀ k, k < j → ∃ c, s.caps[k]? = some c ∧ c < r.jars) ∧
    step pool s r = ⟨decAt r.jars j s.caps, s.planned ++ [⟨r, j, pool⟩], s.backlog⟩ ∧
    (step pool s r).caps[j]? = some 0 := by
  refine ⟨findSlot_some_first hfind, step_of_some hfind, ?_⟩
  rw [step_of_some hfind]
  show (decAt r.jars j s.caps)[j]? = some 0
  rw [decAt_getElem?_self, heq]
  simp

/-- Witness for C9: a two-cell state `[10, 40]` and a 40-jar record; the
record goes to cell 1 and drives its remaining capacity to 0. -/
theorem claim_c9_witness :
    (∀ k, k < 1 → ∃ c, ([10, 40] : List Int)[k]? = some c ∧ c < (40 : Int)) ∧
    step "pool_gen" ⟨[10, 40], [], []⟩ rowA
      = ⟨decAt 40 1 [10, 40], [⟨rowA, 1, "pool_gen"⟩], []⟩ ∧
    (step "pool_gen" ⟨[10, 40], [], []⟩ rowA).caps[1]? = some 0 := by
  have h := claim_c9 "pool_gen" ⟨[10, 40], [], []⟩ rowA 1 (by decide) (by decide)
  exact ⟨h.1, h.2.1, h.2.2⟩


/-- C6: every eligible record assigned to one of the two pools ends up in
exactly one of Planned or Backlog (the two lists' records together are a
permutation of the pool-assignable eligible records), and every backlog
entry carries the reason `'Capacité insuffisante'`. -/
theorem claim_c6 (capGen capI : Int) (rows : List PRow) :
    (((runSchedule capGen capI rows).planned.map (fun p => p.row)) ++
      ((runSchedule capGen capI rows).backlog.map (fun b => b.row))).Perm
      (rows.filter (fun r => r.eligible && (isGen r || isI r))) ∧
    ∀ b ∈ (runSchedule capGen capI rows).backlog,
      b.reason = "Capacité insuffisante" := by
  constructor
  · have hgen := runPool_partition "pool_gen" capGen (genRowsOf rows)
    have hi := runPool_partition "pool_i" capI (iRowsOf rows)
    have hp : (runSchedule capGen capI rows).planned
        = (runPool "pool_gen" capGen (genRowsOf rows)).planned
          ++ (runPool "pool_i" capI (iRowsOf rows)).planned := rfl
    have hb : (runSchedule capGen capI rows).backlog
        = (runPool "pool_gen" capGen (genRowsOf rows)).backlog
          ++ (runPool "pool_i" capI (iRowsOf rows)).backlog := rfl
    rw [hp, hb, List.map_append, List.map_append]
    refine (perm_exchange _ _ _ _).trans ?_
    refine (hgen.append hi).trans ?_
    unfold genRowsOf iRowsOf
    refine (filter_or_perm isGen_isI_disjoint _).trans ?_
    rw [List.filter_filter]
    apply List.Perm.of_eq
    apply List.filter_congr
    intro x _
    exact Bool.and_comm _ _
  · intro b hb
    have hbeq : (runSchedule capGen capI rows).backlog
        = (runPool "pool_gen" capGen (genRowsOf rows)).backlog
          ++ (runPool "pool_i" capI (iRowsOf rows)).backlog := rfl
    rw [hbeq] at hb
    rcases List.mem_append.1 hb with hb | hb
    · exact foldl_backlog_reason "pool_gen" (attemptOrder (genRowsOf rows))
        (initState capGen) (fun b hb => by simp [initState] at hb) b hb
    · exact foldl_backlog_reason "pool_i" (attemptOrder (iRowsOf rows))
        (initState capI) (fun b hb => by simp [initState] at hb) b hb

/-- Witness for C6: one oversized record; it is backlogged, and the
partition and the backlog reason hold at this concrete input. -/
theorem claim_c6_witness :
    (((runSchedule 100 75 [rowBig]).planned.map (fun p => p.row)) ++
      ((runSchedule 100 75 [rowBig]).backlog.map (fun b => b.row))).Perm
      ([rowBig].filter (fun r => r.eligible && (isGen r || isI r))) ∧
    (⟨rowBig, "Capacité insuffisante"⟩ : BacklogItem).reason
      = "Capacité insuffisante" := by
  refine ⟨(claim_c6 100 75 [rowBig]).1, ?_⟩
  exact (claim_c6 100 75 [rowBig]).2 ⟨rowBig, "Capacité insuffisante"⟩ (by decide)

/-- C8: an eligible record whose pool is neither `pool_gen` nor `pool_i`
is excluded from both Planned and Backlog (every planned or backlogged
record is eligible and pool-assigned), and the counts stay consistent:
total eligible = planned + backlog + the number of eligible no-pool
records. -/
theorem claim_c8 (capGen capI : Int) (rows : List PRow) :
    (∀ p ∈ (runSchedule capGen capI rows).planned,
        p.row.eligible = true ∧ (isGen p.row || isI p.row) = true) ∧
    (∀ b ∈ (runSchedule capGen capI rows).backlog,
        b.row.eligible = true ∧ (isGen b.row || isI b.row) = true) ∧
    (runSchedule capGen capI rows).totalEligible =
      (runSchedule capGen capI rows).planned.length +
        (runSchedule capGen capI rows).backlog.length +
        (rows.filter (fun r => r.eligible && !(isGen r || isI r))).length := by
  have hmemg : ∀ x ∈ genRowsOf rows, x.eligible = true ∧ (isGen x || isI x) = true := by
    intro x hx
    rcases List.mem_filter.1 hx with ⟨hx1, hgen⟩
    rcases List.mem_filter.1 hx1 with ⟨_, helig⟩
    exact ⟨helig, by simp [hgen]⟩
  have hmemi : ∀ x ∈ iRowsOf rows, x.eligible = true ∧ (isGen x || isI x) = true := by
    intro x hx
    rcases List.mem_filter.1 hx with ⟨hx1, hi⟩
    rcases List.mem_filter.1 hx1 with ⟨_, helig⟩
    exact ⟨helig, by simp [hi]⟩
  refine ⟨?_, ?_, ?_⟩
  · intro p hp
    have hp' : p ∈ (runPool "pool_gen" capGen (genRowsOf rows)).planned
        ++ (runPool "pool_i" capI (iRowsOf rows)).planned := hp
    rcases List.mem_append.1 hp' with h | h
    · exact hmemg _ (runPool_planned_row_mem h)
    · exact hmemi _ (runPool_planned_row_mem h)
  · intro b hb
    have hb' : b ∈ (runPool "pool_gen" capGen (genRowsOf rows)).backlog
        ++ (runPool "pool_i" capI (iRowsOf rows)).backlog := hb
    rcases List.mem_append.1 hb' with h | h
    · exact hmemg _ (runPool_backlog_row_mem h)
    · exact hmemi _ (runPool_backlog_row_mem h)
  · have h1 := (runPool_partition "pool_gen" capGen (genRowsOf rows)).length_eq
    have h2 := (runPool_partition "pool_i" capI (iRowsOf rows)).length_eq
    simp only [List.length_append, List.length_map] at h1 h2
    have h3 : (genRowsOf rows).length + (iRowsOf rows).length
        = ((rows.filter (fun r => r.eligible)).filter
            (fun a => isGen a || isI a)).length := by
      have := (filter_or_perm isGen_isI_disjoint
        (rows.filter (fun r => r.eligible))).length_eq
      simpa [genRowsOf, iRowsOf] using this
    have h4 : (rows.filter (fun r => r.eligible)).length =
        ((rows.filter (fun r => r.eligible)).filter (fun a => isGen a || isI a)).length +
        ((rows.filter (fun r => r.eligible)).filter
          (fun a => !(isGen a || isI a))).length :=
      List.length_eq_length_filter_add _
    have h5 : (rows.filter (fun r => r.eligible)).filter (fun a => !(isGen a || isI a))
        = rows.filter (fun r => r.eligible && !(isGen r || isI r)) := by
      rw [List.filter_filter]
      apply List.filter_congr
      intro x _
      exact Bool.and_comm _ _
    have htot : (runSchedule capGen capI rows).totalEligible
        = (rows.filter (fun r => r.eligible)).length := rfl
    have hpl : (runSchedule capGen capI rows).planned.length
        = (runPool "pool_gen" capGen (genRowsOf rows)).planned.length
          + (runPool "pool_i" capI (iRowsOf rows)).planned.length := by
      have : (runSchedule capGen capI rows).planned
          = (runPool "pool_gen" capGen (genRowsOf rows)).planned
            ++ (runPool "pool_i" capI (iRowsOf rows)).planned := rfl
      rw [this, List.length_append]
    have hbl : (runSchedule capGen capI rows).backlog.length
        = (runPool "pool_gen" capGen (genRowsOf rows)).backlog.length
          + (runPool "pool_i" capI (iRowsOf rows)).backlog.length := by
      have : (runSchedule capGen capI rows).backlog
          = (runPool "pool_gen" capGen (genRowsOf rows)).backlog
            ++ (runPool "pool_i" capI (iRowsOf rows)).backlog := rfl
      rw [this, List.length_append]
    rw [htot, hpl, hbl, ← h5]
    omega

/-- Witness for C8: one general-pool record and one eligible no-pool
record; the counting identity holds (1 eligible-no-pool record excluded)
and the planned record is pool-assigned. -/
theorem claim_c8_witness :
    (runSchedule 100 75 [rowA, rowNoPool]).totalEligible =
      (runSchedule 100 75 [rowA, rowNoPool]).planned.length +
        (runSchedule 100 75 [rowA, rowNoPool]).backlog.length +
        ([rowA, rowNoPool].filter (fun r => r.eligible && !(isGen r || isI r))).length ∧
    rowA.eligible = true ∧ (isGen rowA || isI rowA) = true := by
  refine ⟨(claim_c8 100 75 [rowA, rowNoPool]).2.2, ?_⟩
  exact (claim_c8 100 75 [rowA, rowNoPool]).1 ⟨rowA, 0, "pool_gen"⟩ (by decide)

/-- C10: the `allow_split` argument is never read, so for any prepared
input and week start the whole result is identical for both flag values;
in particular a record whose jar count exceeds its pool's per-cell initial
capacity is backlogged (never split across cells) even when splitting is
"allowed". -/
theorem claim_c10 (capGen capI : Int) (rows : List PRow) (ws : Int)
    (hjars : ∀ r ∈ rows, 0 ≤ r.jars) :
    (∀ a b : Bool, create_weekly_schedule capGen capI rows ws a
        = create_weekly_schedule capGen capI rows ws b) ∧
    (∀ r ∈ rows, r.eligible = true → isGen r = true → capGen < r.jars →
      ∃ b ∈ (runSchedule capGen capI rows).backlog, b.row = r) ∧
    (∀ r ∈ rows, r.eligible = true → isI r = true → capI < r.jars →
      ∃ b ∈ (runSchedule capGen capI rows).backlog, b.row = r) := by
  refine ⟨fun a b => rfl, ?_, ?_⟩
  · intro r hr helig hgen hbig
    have hrmem : r ∈ genRowsOf rows :=
      List.mem_filter.2 ⟨List.mem_filter.2 ⟨hr, helig⟩, hgen⟩
    have hrmem' : r ∈ attemptOrder (genRowsOf rows) :=
      (attemptOrder_perm _).mem_iff.2 hrmem
    have hjars' : ∀ x ∈ attemptOrder (genRowsOf rows), 0 ≤ x.jars := by
      intro x hx
      have hx' := (attemptOrder_perm _).mem_iff.1 hx
      exact hjars x (List.mem_filter.1 (List.mem_filter.1 hx').1).1
    have hcaps : ∀ c ∈ (initState capGen).caps, c ≤ capGen := by
      intro c hc
      rcases (List.mem_replicate.1 hc).2 with rfl
      exact le_refl _
    obtain ⟨b, hb, hbr⟩ := big_to_backlog "pool_gen" (attemptOrder (genRowsOf rows))
      (initState capGen) r hcaps hjars' hrmem' hbig
    refine ⟨b, ?_, hbr⟩
    exact List.mem_append.2 (Or.inl hb)
  · intro r hr helig hi hbig
    have hrmem : r ∈ iRowsOf rows :=
      List.mem_filter.2 ⟨List.mem_filter.2 ⟨hr, helig⟩, hi⟩
    have hrmem' : r ∈ attemptOrder (iRowsOf rows) :=
      (attemptOrder_perm _).mem_iff.2 hrmem
    have hjars' : ∀ x ∈ attemptOrder (iRowsOf rows), 0 ≤ x.jars := by
      intro x hx
      have hx' := (attemptOrder_perm _).mem_iff.1 hx
      exact hjars x (List.mem_filter.1 (List.mem_filter.1 hx').1).1
    have hcaps : ∀ c ∈ (initState capI).caps, c ≤ capI := by
      intro c hc
      rcases (List.mem_replicate.1 hc).2 with rfl
      exact le_refl _
    obtain ⟨b, hb, hbr⟩ := big_to_backlog "pool_i" (attemptOrder (iRowsOf rows))
      (initState capI) r hcaps hjars' hrmem' hbig
    refine ⟨b, ?_, hbr⟩
    exact List.mem_append.2 (Or.inr hb)

/-- Witness for C10: a 1000-jar record with per-cell capacity 100; the
output is flag-independent and the record lands in the backlog. -/
theorem claim_c10_witness :
    create_weekly_schedule 100 75 [rowBig] 0 true
      = create_weekly_schedule 100 75 [rowBig] 0 false ∧
    ∃ b ∈ (runSchedule 100 75 [rowBig]).backlog, b.row = rowBig := by
  have h := claim_c10 100 75 [rowBig] 0 (by decide)
  exact ⟨h.1 true false, h.2.1 rowBig (by decide) (by decide) (by decide) (by decide)⟩


/-- C4: strain groups are processed in strictly-descending mean-age order
(a group with strictly greater mean age than another comes strictly
earlier), records inside each group are in age-descending order, and in
the flattened attempt sequence every record of an earlier group is
attempted before any record of a later group. -/
theorem claim_c4 (rows : List PRow) :
    (∀ (i j : Fin (group_by_strain rows).length),
        ((group_by_strain rows).get j).avgAge < ((group_by_strain rows).get i).avgAge →
        (i : ℕ) < (j : ℕ)) ∧
    (∀ g ∈ group_by_strain rows, g.items.Pairwise (fun a b => b.age ≤ a.age)) ∧
    (∀ (i j : Fin (group_by_strain rows).length), (i : ℕ) < (j : ℕ) →
      ∃ pre mid post, attemptOrder rows =
        pre ++ ((group_by_strain rows).get i).items ++
          (mid ++ (((group_by_strain rows).get j).items ++ post))) := by
  refine ⟨?_, group_items_pairwise rows, ?_⟩
  · intro i j hlt
    have hp := List.pairwise_iff_get.1 (group_by_strain_pairwise rows)
    rcases lt_trichotomy (i : ℕ) (j : ℕ) with h | h | h
    · exact h
    · exact absurd (Fin.ext h ▸ hlt) (lt_irrefl _)
    · exact absurd hlt (not_lt.2 (hp j i h))
  · intro i j hij
    obtain ⟨l₁, l₂, l₃, hsplit⟩ := exists_split_two (group_by_strain rows) i j hij
    refine ⟨l₁.flatMap (fun g => g.items), l₂.flatMap (fun g => g.items),
      l₃.flatMap (fun g => g.items), ?_⟩
    unfold attemptOrder
    conv_lhs => rw [hsplit]
    simp [List.flatMap_append, List.flatMap_cons, List.append_assoc]

/-- Witness for C4 at Scenario A: group A (mean age 10) precedes group B
(mean age 5); A's record list is age-sorted; A's items appear before B's
in the attempt order. -/
theorem claim_c4_witness :
    ((0 : ℕ) < (1 : ℕ)) ∧
    List.Pairwise (fun a b : PRow => b.age ≤ a.age) [rowA, rowA, rowA] ∧
    ∃ pre mid post, attemptOrder scenarioA =
      pre ++ ((group_by_strain scenarioA).get ⟨0, by decide⟩).items ++
        (mid ++ (((group_by_strain scenarioA).get ⟨1, by decide⟩).items ++ post)) := by
  refine ⟨(claim_c4 scenarioA).1 ⟨0, by decide⟩ ⟨1, by decide⟩ (by decide), ?_,
    (claim_c4 scenarioA).2.2 ⟨0, by decide⟩ ⟨1, by decide⟩ (by decide)⟩
  exact (claim_c4 scenarioA).2.1 ⟨"A", mkRat 30 3, 120, [rowA, rowA, rowA]⟩ (by decide)


/-- C5: for inputs whose jar counts are nonnegative (and nonnegative
configured capacities), throughout either pool's placement pass every
cell's remaining capacity stays ≥ 0, the capacity vector only ever
decreases, each step changes at most one cell and decreases it by exactly
the full jar count of the record placed there, and at every point the sum
of jar counts placed into a cell equals initial − remaining and never
exceeds the cell's initial capacity; the trace ends in the exact state
whose capacity grids `runSchedule` reports. -/
theorem claim_c5 (capGen capI : Int) (rows : List PRow) (pool : String)
    (cap : Int) (l : List PRow)
    (hpool : (pool = "pool_gen" ∧ cap = capGen ∧ l = attemptOrder (genRowsOf rows)) ∨
             (pool = "pool_i" ∧ cap = capI ∧ l = attemptOrder (iRowsOf rows)))
    (hcap : 0 ≤ cap) (hjars : ∀ r ∈ rows, 0 ≤ r.jars) :
    (∀ t ∈ traceFrom pool (initState cap) l, ∀ c ∈ t.caps, 0 ≤ c) ∧
    List.Chain' (fun a b => List.Forall₂ (fun x y => y ≤ x) a.caps b.caps)
      (traceFrom pool (initState cap) l) ∧
    (∀ t ∈ traceFrom pool (initState cap) l, ∀ j, j < numSlots →
      slotSum j t.planned + t.caps.getD j 0 = cap ∧ slotSum j t.planned ≤ cap) ∧
    (∀ (i : Nat) (r : PRow), l[i]? = some r →
      ∃ t, (traceFrom pool (initState cap) l)[i]? = some t ∧
        (traceFrom pool (initState cap) l)[i + 1]? = some (step pool t r) ∧
        ((step pool t r).caps = t.caps ∨
          ∃ j, j < t.caps.length ∧
            (∀ k, k ≠ j → (step pool t r).caps[k]? = t.caps[k]?) ∧
            (step pool t r).caps[j]? = t.caps[j]?.map (fun c => c - r.jars))) ∧
    (traceFrom pool (initState cap) l).getLast?
      = some (l.foldl (step pool) (initState cap)) ∧
    (runSchedule capGen capI rows).capsGen
      = ((attemptOrder (genRowsOf rows)).foldl (step "pool_gen")
          (initState capGen)).caps ∧
    (runSchedule capGen capI rows).capsI
      = ((attemptOrder (iRowsOf rows)).foldl (step "pool_i")
          (initState capI)).caps := by
  have hjl : ∀ x ∈ l, 0 ≤ x.jars := by
    rcases hpool with ⟨_, _, rfl⟩ | ⟨_, _, rfl⟩ <;>
    · intro x hx
      have hx' := (attemptOrder_perm _).mem_iff.1 hx
      exact hjars x (List.mem_filter.1 (List.mem_filter.1 hx').1).1
  have hstate := poolRun_state_inv pool l hcap
  refine ⟨fun t ht => (hstate t ht).1, traceFrom_chain' l (initState cap) hjl,
    ?_, ?_, traceFrom_getLast? pool l (initState cap), rfl, rfl⟩
  · intro t ht j hj
    have h := hstate t ht
    refine ⟨h.2.2 j hj, ?_⟩
    have hlen : j < t.caps.length := h.2.1 ▸ hj
    have hd : t.caps.getD j 0 = t.caps[j] := by
      rw [List.getD_eq_getElem?_getD, List.getElem?_eq_getElem hlen]
      rfl
    have hnn : 0 ≤ t.caps[j] := h.1 _ (List.getElem_mem hlen)
    have heq := h.2.2 j hj
    omega
  · intro i r hir
    obtain ⟨t, ht1, ht2⟩ := traceFrom_succ l (initState cap) i r hir
    exact ⟨t, ht1, ht2, step_shape pool t r⟩

/-- Witness for C5 at Scenario A's general-pool run: the initial state
satisfies the per-cell accounting bound, the first step exists and has
the one-cell-full-decrement shape, and the trace ends in the fold's final
state. -/
theorem claim_c5_witness :
    ((traceFrom "pool_gen" (initState 100) (attemptOrder (genRowsOf scenarioA))).getLast?
      = some ((attemptOrder (genRowsOf scenarioA)).foldl (step "pool_gen")
          (initState 100))) ∧
    (slotSum 0 (initState 100).planned + (initState 100).caps.getD 0 0 = 100 ∧
      slotSum 0 (initState 100).planned ≤ 100) ∧
    (∃ t, (traceFrom "pool_gen" (initState 100) (attemptOrder (genRowsOf scenarioA)))[0]?
        = some t ∧
      (traceFrom "pool_gen" (initState 100) (attemptOrder (genRowsOf scenarioA)))[1]?
        = some (step "pool_gen" t rowA) ∧
      ((step "pool_gen" t rowA).caps = t.caps ∨
        ∃ j, j < t.caps.length ∧
          (∀ k, k ≠ j → (step "pool_gen" t rowA).caps[k]? = t.caps[k]?) ∧
          (step "pool_gen" t rowA).caps[j]? = t.caps[j]?.map (fun c => c - rowA.jars))) := by
  have h := claim_c5 100 75 scenarioA "pool_gen" 100
    (attemptOrder (genRowsOf scenarioA)) (Or.inl ⟨rfl, rfl, rfl⟩)
    (by decide) (by decide)
  refine ⟨h.2.2.2.2.1, ?_, h.2.2.2.1 0 rowA (by decide)⟩
  exact h.2.2.1 (initState 100) (by decide) 0 (by decide)

end PlanningEngine
